import Mathlib

/-!
Verification of the Pluto parser (src/src/lparser.cpp) against its
natural-language specification.  The development below is a shallow
embedding of the parser's data model and of the functions named by the
claims: the operator-priority table and `subexpr`, the active-variable
table (`new_localvar`, `adjustlocalvars`, `reglevel`, `luaY_nvarstack`),
the block/label/goto resolver (`enterblock`, `leaveblock`, `createlabel`,
`solvegoto`, `movegotosout`, `breakstat`, `gotostat`, `continuestat`),
the readonly check (`check_readonly`) with the assignment driver
(`restassign`, `compoundassign`), the `caselist` dispatcher of `switch`
bodies, and the statement epilogue that resets the free-register
watermark.  The code emitter (lcode.cpp) is external to the parser; its
calls are recorded as abstract emitted instructions.
-/

deriving instance DecidableEq for Except

namespace Pluto

/-! ### Tokens

The subset of the lexer's token alphabet that the claims exercise.
Semantic payloads follow `seminfo`: integer tokens carry their value. -/

inductive Token where
  | tkInt (i : Int)
  | tkPlus | tkMinus | tkStar | tkSlash | tkIDiv | tkPercent | tkCaret
  | tkAmp | tkPipe | tkTilde | tkShl | tkShr | tkConcat
  | tkEq | tkNe | tkLt | tkLe | tkGt | tkGe
  | tkAnd | tkOr | tkCoal | tkNot | tkHash
  | tkIf | tkThen | tkElse
  | tkBreak | tkEnd | tkContinue | tkPContinue
  | tkCase | tkPCase | tkDefault | tkPDefault
  | tkComma
  deriving DecidableEq, Repr

/-- The compound-assignment tokens the lexer can save in
`ls->lasttoken` (`TK_CADD` ... `TK_CSHR`, and `TK_COAL` for `??=`). -/
inductive CompTok where
  | tkCAdd | tkCSub | tkCMul | tkCDiv | tkCIDiv | tkCMod | tkCPow
  | tkCCat | tkCBAnd | tkCBOr | tkCBXor | tkCShl | tkCShr
  | tkCoalSaved
  deriving DecidableEq, Repr

/-! ### Unary and binary operators (`UnOpr`, `BinOpr`, lcode.h order) -/

inductive UnOpr where
  | OPR_MINUS | OPR_BNOT | OPR_LEN | OPR_NOT
  deriving DecidableEq, Repr

inductive BinOpr where
  | OPR_ADD | OPR_SUB | OPR_MUL | OPR_MOD | OPR_POW
  | OPR_DIV | OPR_IDIV
  | OPR_BAND | OPR_BOR | OPR_BXOR
  | OPR_SHL | OPR_SHR
  | OPR_CONCAT
  | OPR_EQ | OPR_LT | OPR_LE
  | OPR_NE | OPR_GT | OPR_GE
  | OPR_AND | OPR_OR | OPR_COAL
  deriving DecidableEq, Repr

open Token UnOpr BinOpr

/-- `getunopr` (lparser.cpp): token to unary operator, if any. -/
def getunopr (t : Token) : Option UnOpr :=
  match t with
  | tkNot => some OPR_NOT
  | tkMinus => some OPR_MINUS
  | tkTilde => some OPR_BNOT
  | tkHash => some OPR_LEN
  | _ => none

/-- `getbinopr` (lparser.cpp): token to binary operator, if any. -/
def getbinopr (t : Token) : Option BinOpr :=
  match t with
  | tkPlus => some OPR_ADD
  | tkMinus => some OPR_SUB
  | tkStar => some OPR_MUL
  | tkPercent => some OPR_MOD
  | tkCaret => some OPR_POW
  | tkSlash => some OPR_DIV
  | tkIDiv => some OPR_IDIV
  | tkAmp => some OPR_BAND
  | tkPipe => some OPR_BOR
  | tkTilde => some OPR_BXOR
  | tkShl => some OPR_SHL
  | tkShr => some OPR_SHR
  | tkConcat => some OPR_CONCAT
  | tkNe => some OPR_NE
  | tkEq => some OPR_EQ
  | tkLt => some OPR_LT
  | tkLe => some OPR_LE
  | tkGt => some OPR_GT
  | tkGe => some OPR_GE
  | tkAnd => some OPR_AND
  | tkOr => some OPR_OR
  | tkCoal => some OPR_COAL
  | _ => none

/-- Left priority of each binary operator (the `priority[]` table,
lparser.cpp lines 1773-1787). -/
def priorityLeft (op : BinOpr) : Nat :=
  match op with
  | OPR_ADD => 10 | OPR_SUB => 10
  | OPR_MUL => 11 | OPR_MOD => 11
  | OPR_POW => 14
  | OPR_DIV => 11 | OPR_IDIV => 11
  | OPR_BAND => 6 | OPR_BOR => 4 | OPR_BXOR => 5
  | OPR_SHL => 7 | OPR_SHR => 7
  | OPR_CONCAT => 9
  | OPR_EQ => 3 | OPR_LT => 3 | OPR_LE => 3
  | OPR_NE => 3 | OPR_GT => 3 | OPR_GE => 3
  | OPR_AND => 2 | OPR_OR => 1 | OPR_COAL => 1

/-- Right priority of each binary operator (the `priority[]` table;
`^` and `..` are right-associative: right < left). -/
def priorityRight (op : BinOpr) : Nat :=
  match op with
  | OPR_ADD => 10 | OPR_SUB => 10
  | OPR_MUL => 11 | OPR_MOD => 11
  | OPR_POW => 13
  | OPR_DIV => 11 | OPR_IDIV => 11
  | OPR_BAND => 6 | OPR_BOR => 4 | OPR_BXOR => 5
  | OPR_SHL => 7 | OPR_SHR => 7
  | OPR_CONCAT => 8
  | OPR_EQ => 3 | OPR_LT => 3 | OPR_LE => 3
  | OPR_NE => 3 | OPR_GT => 3 | OPR_GE => 3
  | OPR_AND => 2 | OPR_OR => 1 | OPR_COAL => 1

/-- `UNARY_PRIORITY` (lparser.cpp line 1789). -/
def UNARY_PRIORITY : Nat := 12

/-! ### Expression abstract syntax

`subexpr` drives `luaK_prefix` / `luaK_infix` / `luaK_posfix`; the fold
structure those calls build is recorded as a tree.  An `if`-expression
(`ifexpr`) produces its own node. -/

inductive Ast where
  | int (i : Int)
  | unop (u : UnOpr) (a : Ast)
  | binop (b : BinOpr) (l r : Ast)
  | ifE (c t e : Ast)
  deriving DecidableEq, Repr

mutual

/-- `subexpr` (lparser.cpp lines 1796-1842), over the token alphabet
above (simpleexp restricted to integer literals).  Reads a prefix part:
a unary operator whose operand is read at `UNARY_PRIORITY`, an
`if`-expression, the pseudo-unary `+` synthesized as `0 + subexpr`
read at `priority[OPR_ADD].right`, or a simple expression; then folds
binary operators while their left priority exceeds `limit`, reading
each right operand at the operator's right priority.  Returns the
parsed tree and the unconsumed tokens (the head of which is the first
untreated operator).  Fuel makes the recursion structural; every
recursive step either consumes a token or terminates, so the
`2 * length + 1` fuel `expr` supplies is always enough. -/
def subexpr (fuel : Nat) (toks : List Token) (limit : Nat) :
    Option (Ast × List Token) :=
  match fuel with
  | 0 => none
  | fuel + 1 =>
    match toks with
    | [] => none
    | t :: rest =>
      match getunopr t with
      | some u =>
        match subexpr fuel rest UNARY_PRIORITY with
        | some (v, r) => subexprLoop fuel (Ast.unop u v) r limit
        | none => none
      | none =>
        if t = tkIf then
          match ifexpr fuel rest with
          | some (v, r) => subexprLoop fuel v r limit
          | none => none
        else if t = tkPlus then
          match subexpr fuel rest (priorityRight OPR_ADD) with
          | some (v, r) =>
            subexprLoop fuel (Ast.binop OPR_ADD (Ast.int 0) v) r limit
          | none => none
        else
          match t with
          | tkInt i => subexprLoop fuel (Ast.int i) rest limit
          | _ => none

/-- The `while` loop of `subexpr`: folds binary operators with left
priority above `limit` via `luaK_infix`/`luaK_posfix`. -/
def subexprLoop (fuel : Nat) (v : Ast) (toks : List Token) (limit : Nat) :
    Option (Ast × List Token) :=
  match fuel with
  | 0 => none
  | fuel + 1 =>
    match toks with
    | [] => some (v, toks)
    | t :: rest =>
      match getbinopr t with
      | none => some (v, toks)
      | some op =>
        if priorityLeft op > limit then
          match subexpr fuel rest (priorityRight op) with
          | some (v2, r) => subexprLoop fuel (Ast.binop op v v2) r limit
          | none => none
        else
          some (v, toks)

/-- `ifexpr` (lparser.cpp lines 1626-1645): `if cond then e1 else e2`
as an expression; the condition and both arms are read with `expr`
(that is, `subexpr` at limit 0). -/
def ifexpr (fuel : Nat) (toks : List Token) : Option (Ast × List Token) :=
  match fuel with
  | 0 => none
  | fuel + 1 =>
    match subexpr fuel toks 0 with
    | some (c, tkThen :: rest1) =>
      match subexpr fuel rest1 0 with
      | some (v1, tkElse :: rest2) =>
        match subexpr fuel rest2 0 with
        | some (v2, r) => some (Ast.ifE c v1 v2, r)
        | none => none
      | _ => none
    | _ => none

end

/-- `expr` (lparser.cpp line 1845): `subexpr` at limit 0.  The fuel
`2 * length + 1` dominates the recursion depth: every step of
`subexpr`/`subexprLoop` either consumes a token or terminates. -/
def expr (toks : List Token) : Option (Ast × List Token) :=
  subexpr (2 * toks.length + 1) toks 0

/-- `explist` (lparser.cpp lines 1416-1426): `expr { ',' expr }`;
counts the expressions and returns the unconsumed tokens. -/
def explistAux (fuel : Nat) (toks : List Token) (n : Nat) :
    Option (Nat × List Token) :=
  match fuel with
  | 0 => none
  | fuel + 1 =>
    match toks with
    | tkComma :: rest =>
      match expr rest with
      | some (_, rem) => explistAux fuel rem (n + 1)
      | none => none
    | _ => some (n, toks)

def explist (toks : List Token) : Option (Nat × List Token) :=
  match expr toks with
  | some (_, rest) => explistAux (rest.length + 1) rest 1
  | none => none

/-! ### Variable descriptions and expression descriptors -/

/-- Variable kinds (lparser.h): `VDKREG` regular, `RDKCONST` constant,
`RDKTOCLOSE` to-be-closed, `RDKCTC` compile-time constant. -/
inductive VarKind where
  | VDKREG | RDKCONST | RDKTOCLOSE | RDKCTC
  deriving DecidableEq, Repr

/-- `Vardesc`: description of an active local variable.  `ridx` is the
register holding the variable (assigned by `adjustlocalvars`). -/
structure Vardesc where
  kind : VarKind := .VDKREG
  name : String := ""
  ridx : Nat := 0
  deriving DecidableEq, Repr

instance : Inhabited Vardesc := ⟨{}⟩

/-- `Upvaldesc`: description of an upvalue of a prototype; `kind` is
copied from the captured variable. -/
structure Upvaldesc where
  name : String := ""
  kind : VarKind := .VDKREG
  deriving DecidableEq, Repr

instance : Inhabited Upvaldesc := ⟨{}⟩

/-- `expdesc` (lparser.h): kinds of expressions, with the payloads the
claims touch.  `VLOCAL` carries the compiler index `vidx` and register
index `ridx`; `VCONST` carries an absolute index into the
active-variable array; `VUPVAL` an upvalue index. -/
inductive ExpDesc where
  | VVOID | VNIL | VTRUE | VFALSE
  | VKINT (i : Int) | VKFLT | VKSTR (s : String)
  | VNONRELOC (reg : Nat)
  | VLOCAL (vidx ridx : Nat)
  | VUPVAL (info : Nat)
  | VCONST (info : Nat)
  | VINDEXED (t idx : Nat)
  | VINDEXUP (t : Nat) (key : String)
  | VINDEXI (t : Nat) (key : Int)
  | VINDEXSTR (t : Nat) (key : String)
  | VJMP (pc : Nat) | VRELOC (pc : Nat) | VCALL (pc : Nat) | VVARARG (pc : Nat)
  deriving DecidableEq, Repr

/-- `vkisvar` (lparser.h): `VLOCAL <= k <= VINDEXSTR`. -/
def vkisvar : ExpDesc → Bool
  | .VLOCAL _ _ | .VUPVAL _ | .VCONST _
  | .VINDEXED _ _ | .VINDEXUP _ _ | .VINDEXI _ _ | .VINDEXSTR _ _ => true
  | _ => false

/-! ### Labels, gotos, blocks, and the function state -/

/-- `Labeldesc` (lparser.h): description of an active label or of a
pending goto. -/
structure Labeldesc where
  name : String := ""
  line : Nat := 0
  nactvar : Nat := 0
  close : Bool := false
  pc : Nat := 0
  deriving DecidableEq, Repr

instance : Inhabited Labeldesc := ⟨{}⟩

/-- `BlockCnt` (lparser.cpp lines 62-71).  `scopeend` is the jump list
`continue` concatenates onto, modelled as the list of pending jump
pcs. -/
structure Block where
  scopeend : List Nat := []
  firstlabel : Nat := 0
  firstgoto : Nat := 0
  nactvar : Nat := 0
  upval : Bool := false
  isloop : Bool := false
  insidetbc : Bool := false
  deriving DecidableEq, Repr

instance : Inhabited Block := ⟨{}⟩

/-- Abstract emitted instructions (the parser's calls into lcode.cpp
that materialize in the instruction stream). -/
inductive Instr where
  | jmp
  | opClose (level : Nat)
  | loadNil
  deriving DecidableEq, Repr

/-- The parser state a single function sees: the shared dynamic data
(`dyd`: active-variable array, label list, goto list) together with the
`FuncState` fields the claims touch.  `actvarArr` is the backing store
of `dyd->actvar.arr`; entries at indices `>= actvarN` are stale but
still readable, exactly as in C after `removevars`. -/
structure FS where
  actvarArr : List Vardesc := []
  actvarN : Nat := 0
  firstlocal : Nat := 0
  nactvar : Nat := 0
  upvalues : List Upvaldesc := []
  labels : List Labeldesc := []
  fsFirstlabel : Nat := 0
  gotos : List Labeldesc := []
  blocks : List Block := []
  pc : Nat := 0
  code : List Instr := []
  patches : List (Nat × Nat) := []
  freereg : Nat := 0
  deriving DecidableEq, Repr

def initFS : FS := {}

/-- `getlocalvardesc` (lparser.cpp line 407): the Vardesc of compiler
index `vidx` of the current function. -/
def getlocalvardesc (s : FS) (vidx : Nat) : Vardesc :=
  s.actvarArr.getD (s.firstlocal + vidx) default

/-- `reglevel` (lparser.cpp lines 474-481): convert a compiler-index
level to the corresponding register level, skipping compile-time
constants. -/
def reglevel (s : FS) : Nat → Nat
  | 0 => 0
  | nvar + 1 =>
    let vd := getlocalvardesc s nvar
    if vd.kind ≠ .RDKCTC then vd.ridx + 1 else reglevel s nvar

/-- `luaY_nvarstack` (lparser.cpp line 488): number of variables in the
register stack of the function. -/
def nvarstack (s : FS) : Nat := reglevel s s.nactvar

/-- Parser errors raised through the host (throwerr / luaK_semerror). -/
inductive PErr where
  | tooManyLocals
  | jumpIntoScope (var : String)
  | undefinedLabel (name : String)
  | breakOutsideLoop
  | continueOutsideLoop
  | noBlock
  deriving DecidableEq, Repr

/-- `MAXVARS` (lparser.cpp line 39). -/
def MAXVARS : Nat := 249

/-- Write a Vardesc at index `i` of the backing array (the C code grows
the vector and writes `arr[dyd->actvar.n]`; `i <= length` always
holds). -/
def writeActvar (l : List Vardesc) (i : Nat) (v : Vardesc) : List Vardesc :=
  if i < l.length then l.set i v else l ++ [v]

/-- `new_localvar` (lparser.cpp lines 512-542): checks the per-function
limit `dyd->actvar.n + 1 - fs->firstlocal > MAXVARS`, then pushes a
regular-kind Vardesc and returns its compiler index in the function.
(The duplicate-declaration warning is non-fatal and not modelled.) -/
def new_localvar (s : FS) (name : String) : Except PErr (FS × Nat) :=
  if (s.actvarN : Int) + 1 - (s.firstlocal : Int) > (MAXVARS : Int) then
    .error .tooManyLocals
  else
    .ok ({ s with
            actvarArr := (writeActvar s.actvarArr s.actvarN
              ({ kind := .VDKREG, name := name, ridx := 0 } : Vardesc)),
            actvarN := s.actvarN + 1 },
         s.actvarN + 1 - 1 - s.firstlocal)

/-- Loop body of `adjustlocalvars`. -/
def adjustlocalvarsGo (s : FS) (rl : Nat) : Nat → FS
  | 0 => s
  | k + 1 =>
    let vidx := s.nactvar
    let s' : FS :=
      { s with
        actvarArr := s.actvarArr.set (s.firstlocal + vidx)
          { getlocalvardesc s vidx with ridx := rl },
        nactvar := vidx + 1 }
    adjustlocalvarsGo s' (rl + 1) k

/-- `adjustlocalvars` (lparser.cpp lines 593-603): start the scope of
the last `nvars` created variables, assigning each its register. -/
def adjustlocalvars (s : FS) (nvars : Nat) : FS :=
  adjustlocalvarsGo s (nvarstack s) nvars

/-- `removevars` (lparser.cpp lines 610-617): close the scope of all
variables above `tolevel` (debug end-pcs are not modelled; the backing
array keeps the stale entries, as in C). -/
def removevars (s : FS) (tolevel : Nat) : FS :=
  { s with actvarN := s.actvarN - (s.nactvar - tolevel), nactvar := tolevel }

/-- `check_readonly` (lparser.cpp lines 559-587): the name of the
variable that makes `e` read-only, if any.  A `VCONST` is always
read-only; a `VLOCAL` or `VUPVAL` is read-only iff its kind is not
`VDKREG`; every other expression kind cannot be read-only. -/
def check_readonly (s : FS) (e : ExpDesc) : Option String :=
  match e with
  | .VCONST info => some (s.actvarArr.getD info default).name
  | .VLOCAL vidx _ =>
    let vd := getlocalvardesc s vidx
    if vd.kind ≠ .VDKREG then some vd.name else none
  | .VUPVAL info =>
    let up := s.upvalues.getD info default
    if up.kind ≠ .VDKREG then some up.name else none
  | _ => none

/-! ### Jumps, labels and gotos -/

/-- Emit one instruction (luaK_code*): appends it and advances `pc`. -/
def emitInstr (s : FS) (i : Instr) : FS :=
  { s with code := s.code ++ [i], pc := s.pc + 1 }

/-- `luaK_jump`: emit an unconditional jump, returning its pc. -/
def luaKjump (s : FS) : FS × Nat :=
  (emitInstr s .jmp, s.pc)

/-- `luaK_patchlist` on a single jump: record that the jump at `jpc`
targets `target`. -/
def patchJump (s : FS) (jpc target : Nat) : FS :=
  { s with patches := s.patches ++ [(jpc, target)] }

/-- `luaK_patchlist` on a whole jump list (such as `scopeend`). -/
def patchJumpList (s : FS) (l : List Nat) (target : Nat) : FS :=
  l.foldl (fun s jpc => patchJump s jpc target) s

/-- `newlabelentry` (lparser.cpp lines 841-853): a new label/goto entry
carrying the current `fs->nactvar`. -/
def newlabelentry (s : FS) (name : String) (line pc : Nat) : Labeldesc :=
  { name := name, line := line, nactvar := s.nactvar, close := false, pc := pc }

/-- `newgotoentry` (lparser.cpp line 856): append a pending goto. -/
def newgotoentry (s : FS) (name : String) (line pc : Nat) : FS :=
  { s with gotos := s.gotos ++ [newlabelentry s name line pc] }

/-- `solvegoto` (lparser.cpp lines 808-819): resolve the pending goto at
index `g` to `label`.  If the goto would enter the scope of a variable
(`gt->nactvar < label->nactvar`), raise `jumpscopeerror`, which names
the local at compiler index `gt->nactvar`; otherwise patch the goto's
jump to the label's pc and drop the goto from the pending list. -/
def solvegoto (s : FS) (g : Nat) (label : Labeldesc) : Except PErr FS :=
  let gt := s.gotos.getD g default
  if gt.nactvar < label.nactvar then
    .error (.jumpIntoScope (getlocalvardesc s gt.nactvar).name)
  else
    .ok { patchJump s gt.pc label.pc with gotos := s.gotos.eraseIdx g }

/-- Loop of `solvegotos` (lparser.cpp lines 866-879): walk the pending
gotos from index `i`; resolve every one whose name matches `lb`,
OR-ing their close bits.  Fuel bounds the loop (each step removes a
goto or advances `i`). -/
def solvegotosAux (s : FS) (i : Nat) (lb : Labeldesc) (needsclose : Bool) :
    Nat → Except PErr (FS × Bool)
  | 0 => .ok (s, needsclose)
  | fuel + 1 =>
    if h : i < s.gotos.length then
      let gt := s.gotos.get ⟨i, h⟩
      if gt.name = lb.name then
        match solvegoto s i lb with
        | .error e => .error e
        | .ok s' => solvegotosAux s' i lb (needsclose || gt.close) fuel
      else
        solvegotosAux s (i + 1) lb needsclose fuel
    else
      .ok (s, needsclose)

/-- `solvegotos` (lparser.cpp lines 866-879): resolve all pending gotos
of the current block that match the new label; true iff any resolved
goto needs to close upvalues. -/
def solvegotos (s : FS) (lb : Labeldesc) : Except PErr (FS × Bool) :=
  solvegotosAux s (match s.blocks with
                   | bl :: _ => bl.firstgoto
                   | [] => 0) lb false (2 * s.gotos.length + 1)

/-- `createlabel` (lparser.cpp lines 889-903): push a label at the
current pc; if `last` (label is the final non-op statement of its
block) its active-variable level is the enclosing block's, since the
block's locals are already out of scope.  Solve the matching pending
gotos and emit a `Close` at the current variable stack level iff some
of them needed one; returns whether the close was emitted. -/
def createlabel (s : FS) (name : String) (line : Nat) (last : Bool) :
    Except PErr (FS × Bool) :=
  let lbl0 := newlabelentry s name line s.pc
  let lbl := if last then
               { lbl0 with nactvar := (s.blocks.headD default).nactvar }
             else lbl0
  let s := { s with labels := s.labels ++ [lbl] }
  match solvegotos s lbl with
  | .error e => .error e
  | .ok (s', needs) =>
    if needs then
      .ok (emitInstr s' (.opClose (nvarstack s')), true)
    else
      .ok (s', false)

/-- `movegotosout` (lparser.cpp lines 909-920): adjust the pending gotos
of a closed block to the outer level; a goto leaving the scope of some
variable of an upvalue-carrying block gets its close bit set. -/
def movegotosout (s : FS) (bl : Block) : FS :=
  { s with
      gotos := s.gotos.mapIdx (fun i gt =>
        if bl.firstgoto ≤ i then
          let gt' := if reglevel s gt.nactvar > reglevel s bl.nactvar then
                       { gt with close := gt.close || bl.upval }
                     else gt
          { gt' with nactvar := bl.nactvar }
        else gt) }

/-- `enterblock` (lparser.cpp lines 923-934). -/
def enterblock (s : FS) (isloop : Bool) : FS :=
  { s with
      blocks := ({ scopeend := [],
                   firstlabel := s.labels.length,
                   firstgoto := s.gotos.length,
                   nactvar := s.nactvar,
                   upval := false,
                   isloop := isloop,
                   insidetbc := (match s.blocks with
                                 | b :: _ => b.insidetbc
                                 | [] => false) } : Block) :: s.blocks }

/-- `leaveblock` (lparser.cpp lines 954-974): fix pending breaks of a
loop block via an internal `break` label, emit a deferred `Close` if
needed, restore the variable and register levels, drop the block's
labels, and either move the remaining pending gotos out or, at the
function's outermost block, fail on any still-pending goto
(`undefgoto`; a pending `break` means break outside a loop). -/
def leaveblock (s : FS) : Except PErr FS :=
  match s.blocks with
  | [] => .error .noBlock
  | bl :: restBlocks =>
    let stklevel := reglevel s bl.nactvar
    (if bl.isloop then createlabel s "break" 0 false
     else .ok (s, false)).bind (fun p =>
      let s := p.1
      let hasclose := p.2
      let s := if !hasclose && !restBlocks.isEmpty && bl.upval then
                 emitInstr s (.opClose stklevel)
               else s
      let s := { s with blocks := restBlocks }
      let s := removevars s bl.nactvar
      let s := { s with freereg := stklevel, labels := s.labels.take bl.firstlabel }
      if !restBlocks.isEmpty then
        .ok (movegotosout s bl)
      else if bl.firstgoto < s.gotos.length then
        let gt := s.gotos.getD bl.firstgoto default
        .error (if gt.name = "break" then .breakOutsideLoop
                else .undefinedLabel gt.name)
      else
        .ok s)

/-- `findlabel` (lparser.cpp lines 825-835): first active label of the
current function with the given name. -/
def findlabel (s : FS) (name : String) : Option Labeldesc :=
  (s.labels.drop s.fsFirstlabel).find? (fun lb => lb.name = name)

/-- `gotostat` (lparser.cpp lines 2087-2103): a forward goto records a
pending entry on a fresh jump; a backward goto closes down to the
label's register level if it leaves a variable's scope and patches a
fresh jump to the label. -/
def gotostat (s : FS) (name : String) (line : Nat) : FS :=
  match findlabel s name with
  | none =>
    let (s', jpc) := luaKjump s
    newgotoentry s' name line jpc
  | some lb =>
    let lblevel := reglevel s lb.nactvar
    let s := if nvarstack s > lblevel then emitInstr s (.opClose lblevel) else s
    let (s', jpc) := luaKjump s
    patchJump s' jpc lb.pc

/-- `breakstat` (lparser.cpp lines 2109-2113): semantically
`goto break` — an unconditional jump recorded as a pending goto named
`break`. -/
def breakstat (s : FS) (line : Nat) : FS :=
  let (s', jpc) := luaKjump s
  newgotoentry s' "break" line jpc

/-- The block-stack walk of `continuestat` (lparser.cpp lines
2130-2144): skip blocks, aggregating upvalue bits, until the
`backwards`-th loop block; returns its position and the aggregate.
The loop block that stops the walk does not contribute its own bit. -/
def continueFind : List Block → Int → Bool → Option (Nat × Bool)
  | [], _, _ => none
  | bl :: rest, backwards, upval =>
    if !bl.isloop then
      (continueFind rest backwards (upval || bl.upval)).map
        (fun p => (p.1 + 1, p.2))
    else if backwards - 1 = 0 then
      some (0, upval)
    else
      (continueFind rest (backwards - 1) (upval || bl.upval)).map
        (fun p => (p.1 + 1, p.2))

/-- `continuestat` (lparser.cpp lines 2120-2154): find the
`backwards`-th enclosing loop block; if the walk aggregated an upvalue
bit, emit `Close` at that block's `nactvar`; concat a fresh jump onto
the block's `scopeend` list.  With no such loop, `error_expected`
reports that `continue` is outside a loop. -/
def continuestat (s : FS) (backwards : Int) : Except PErr FS :=
  match continueFind s.blocks backwards false with
  | none => .error .continueOutsideLoop
  | some (i, upval) =>
    let bl := s.blocks.getD i default
    let s := if upval then emitInstr s (.opClose bl.nactvar) else s
    let (s', jpc) := luaKjump s
    .ok { s' with
            blocks := s'.blocks.set i { bl with scopeend := bl.scopeend ++ [jpc] } }

/-! ### Statements -/

/-- The statement forms whose parser effects are embedded here.  Every
form runs through `statement`, which performs the uniform epilogue of
`statement()` (lparser.cpp line 2795). -/
inductive Stmt where
  | empty
  | brk
  | cont (n : Int)
  | gotoS (name : String)
  | labelS (name : String) (last : Bool)
  | localDecl (names : List String)
  deriving DecidableEq, Repr

/-- `localstat` for `local n1, ..., nk` without initializers
(lparser.cpp lines 2575-2621 with `nexps = 0`): declare the names, let
`adjust_assign` pad with nils (`luaK_nil` + `luaK_reserveregs`, which
advances `freereg` by `nvars`), then `adjustlocalvars`. -/
def localstatNoInit (s : FS) (names : List String) : Except PErr FS :=
  (names.foldlM (fun s nm => (new_localvar s nm).map Prod.fst) s).map
    (fun s =>
      let s := { s with code := s.code ++ [Instr.loadNil], pc := s.pc + 1 }
      let s := { s with freereg := s.freereg + names.length }
      adjustlocalvars s names.length)

/-- Dispatch of `statement` (lparser.cpp lines 2701-2792) over the
embedded forms. -/
def statementBody (s : FS) : Stmt → Except PErr FS
  | .empty => .ok s
  | .brk => .ok (breakstat s 0)
  | .cont n => continuestat s n
  | .gotoS name => .ok (gotostat s name 0)
  | .labelS name last => (createlabel s name 0 last).map Prod.fst
  | .localDecl names => localstatNoInit s names

/-- `statement` (lparser.cpp lines 2701-2797): run the statement form,
then the epilogue `fs->freereg = luaY_nvarstack(fs)` that frees the
statement's temporary registers. -/
def statement (s : FS) (st : Stmt) : Except PErr FS :=
  (statementBody s st).map (fun s' => { s' with freereg := nvarstack s' })

/-- `statlist` over embedded statements. -/
def execStmts (s : FS) : List Stmt → Except PErr FS
  | [] => .ok s
  | st :: rest => (statement s st).bind (fun s' => execStmts s' rest)

/-! ### switch / case -/

/-- The decision `caselist` (lparser.cpp lines 1105-1132) takes for the
token at the head of a case body, given its one-token lookahead.  The
loop exits on `case`/`default`/`end`; inside a `default` body a
`break` immediately followed by `end` is skipped outright
(`luaX_next`); a `continue` token raises the continue-in-case error
unconditionally; anything else is handed to `statement`. -/
inductive CaseAction where
  | exitCase
  | skipBreak
  | errContinueInCase
  | runStatement
  deriving DecidableEq, Repr

def caselistStep (isdefault : Bool) (tok ahead : Token) : CaseAction :=
  if tok = tkPDefault || tok = tkPCase || tok = tkEnd
      || tok = tkDefault || tok = tkCase then
    .exitCase
  else if isdefault && tok = tkBreak && ahead = tkEnd then
    .skipBreak
  else if tok = tkPContinue || tok = tkContinue then
    .errContinueInCase
  else
    .runStatement

/-- Modelled from the spec for claim C3 only (to be compared with
`caselistStep`): the claim reads "fails ... when, and only when,
there is no enclosing loop around the switch", so this variant lets a
`continue` through to `statement` whenever an enclosing loop exists. -/
def caselistStepClaimC3 (hasEnclosingLoop isdefault : Bool) (tok ahead : Token) :
    CaseAction :=
  if tok = tkPDefault || tok = tkPCase || tok = tkEnd
      || tok = tkDefault || tok = tkCase then
    .exitCase
  else if isdefault && tok = tkBreak && ahead = tkEnd then
    .skipBreak
  else if (tok = tkPContinue || tok = tkContinue) && !hasEnclosingLoop then
    .errContinueInCase
  else
    .runStatement

/-- The block structure of `switchstat` (lparser.cpp lines 2178-2266)
for a switch with a single case: the control expression lands in the
next register (`luaK_exp2nextreg`), a `"(switch)"` local captures it,
the switch block is entered with `isloop = 1` (line 2192), each case
body runs inside its own non-loop block, and both blocks are left in
order.  The case test/fall-through instructions go through the emitter
and do not affect the block machinery. -/
def switchstatSkeleton (s : FS) (caseBody : List Stmt) : Except PErr FS := do
  let s := { s with freereg := s.freereg + 1 }
  let (s, _) ← new_localvar s "(switch)"
  let s := adjustlocalvars s 1
  let s := enterblock s true
  let s := enterblock s false
  let s ← execStmts s caseBody
  let s ← leaveblock s
  let s ← leaveblock s
  return s

/-! ### Assignments -/

/-- `getcompoundop` (lparser.cpp lines 1929-1992): the binary operation
a saved compound-assignment token (`ls->lasttoken`) requests.  `??=`
saves `TK_COAL` itself (`tkCoalSaved` here); a lexer state holding no
compound token (the function's default 0-returning case) is the absent
`AssignTail.compound`. -/
def getcompoundop (t : CompTok) : BinOpr :=
  match t with
  | .tkCCat => OPR_CONCAT
  | .tkCAdd => OPR_ADD
  | .tkCSub => OPR_SUB
  | .tkCMul => OPR_MUL
  | .tkCMod => OPR_MOD
  | .tkCDiv => OPR_DIV
  | .tkCPow => OPR_POW
  | .tkCIDiv => OPR_IDIV
  | .tkCBOr => OPR_BOR
  | .tkCBAnd => OPR_BAND
  | .tkCBXor => OPR_BXOR
  | .tkCShl => OPR_SHL
  | .tkCShr => OPR_SHR
  | .tkCoalSaved => OPR_COAL

/-- The emitter calls the assignment path makes, in call order. -/
inductive Emit where
  | reserveregs (n : Nat)
  | infOp (op : BinOpr)
  | posfixOp (op : BinOpr)
  | exp2nextreg
  | setoneret
  | storevar (dst : ExpDesc)
  | adjustAssign (nvars nexps : Nat)
  deriving DecidableEq, Repr

inductive AssignErr where
  | notVar
  | readonly (name : String)
  | tupleCompound
  | exprSyntax
  deriving DecidableEq, Repr

/-- What follows the left-hand-side list: a plain `'=' explist`, or a
compound operator saved in `ls->lasttoken`. -/
inductive AssignTail where
  | plainEq
  | compound (op : BinOpr)
  deriving DecidableEq, Repr

/-- `compoundassign` (lparser.cpp lines 2001-2026): read the lvalue as
the left operand (`luaK_infix` on a copy of `v`), parse one
right-hand-side expression, fold with `luaK_posfix`, and store back
into the lvalue.  A non-`VLOCAL` lvalue first reserves scratch
registers and discharges through `luaK_exp2nextreg`. -/
def compoundassign (s : FS) (v : ExpDesc) (op : BinOpr) (toks : List Token) :
    Except AssignErr (List Emit × List Token) :=
  match v with
  | .VLOCAL _ _ =>
    match expr toks with
    | some (_, rest) =>
      .ok ([.infOp op, .posfixOp op, .setoneret, .storevar v], rest)
    | none => .error .exprSyntax
  | _ =>
    match expr toks with
    | some (_, rest) =>
      .ok ([.reserveregs (s.freereg - s.nactvar), .infOp op, .posfixOp op,
            .exp2nextreg, .setoneret, .storevar v], rest)
    | none => .error .exprSyntax

/-- The two checks `restassign` runs on a left-hand side before
anything else (lparser.cpp lines 2035-2036), in order:
`check_condition(vkisvar(lh->v.k))` then `check_readonly`. -/
def restassignChecks (s : FS) (lh : ExpDesc) : Option AssignErr :=
  if !vkisvar lh then some .notVar
  else
    match check_readonly s lh with
    | some nm => some (.readonly nm)
    | none => none

/-- `restassign` (lparser.cpp lines 2033-2075): check each left-hand
side with `vkisvar` and `check_readonly`; recurse over `',' suffixedexp`
with `nvars` incremented (the `check_conflict` register rewriting does
not affect which stores are emitted and is not modelled); at the end
dispatch: a saved compound operator requires `nvars == 1`
("unsupported tuple assignment") and runs `compoundassign`, otherwise
`'=' explist` stores the last expression (`luaK_setoneret` +
`luaK_storevar`) when counts agree or `adjust_assign` pads/drops
first; each outer level then emits its own default store. -/
def restassign (s : FS) (lh : ExpDesc) (rest : List ExpDesc) (nvars : Nat)
    (tail : AssignTail) (toks : List Token) :
    Except AssignErr (List Emit × List Token) :=
  match rest with
  | nv :: rest' =>
    match restassignChecks s lh with
    | some e => .error e
    | none =>
      match restassign s nv rest' (nvars + 1) tail toks with
      | .error e => .error e
      | .ok (ems, remaining) => .ok (ems ++ [.storevar lh], remaining)
  | [] =>
    match restassignChecks s lh with
    | some e => .error e
    | none =>
      match tail with
      | .compound op =>
        if nvars ≠ 1 then .error .tupleCompound
        else compoundassign s lh op toks
      | .plainEq =>
        match explist toks with
        | none => .error .exprSyntax
        | some (nexps, remaining) =>
          if nexps = nvars then
            .ok ([.setoneret, .storevar lh], remaining)
          else
            .ok ([.adjustAssign nvars nexps, .storevar lh], remaining)
termination_by structural rest

/-! ### Concrete parse scenarios -/

/-- The parse of `do goto fwd local v ::fwd:: end` at the top of a
function: two nested blocks, a forward goto, a local declaration, and
the label.  `last` is the `block_follow` flag `labelstat` passes to
`createlabel`: true exactly when the label is the last non-op
statement of its block (here: when `end` follows it directly). -/
def c1Run (last : Bool) : Except PErr FS := do
  let s := enterblock initFS false
  let s := enterblock s false
  let s ← statement s (.gotoS "fwd")
  let s ← statement s (.localDecl ["v"])
  let s ← statement s (.labelS "fwd" last)
  let s ← leaveblock s
  let s ← leaveblock s
  return s

/-- The parse of `while c do switch v do case k: break end local x end`:
an enclosing loop block, a switch (whose case body is a single
`break`), then one more statement so that the loop's own exit pc
differs from the switch's exit pc.  The `statement()` epilogue is
applied after the switch as in `statement`. -/
def c9Run : Except PErr FS := do
  let s := enterblock initFS false
  let s := enterblock s true
  let s ← switchstatSkeleton s [Stmt.brk]
  let s := { s with freereg := nvarstack s }
  let s ← statement s (.localDecl ["x"])
  let s ← leaveblock s
  let s ← leaveblock s
  return s

def c9Final : FS :=
  match c9Run with
  | .ok s => s
  | .error _ => initFS

/-- Modelled from the spec for claim C2 only (to be compared with
`continuestat`): per the claim's words the walk aggregates the
has-upvalue bits of the skipped non-loop blocks only, so a loop block
skipped on the way to the Nth loop contributes nothing; returns the
aggregate at the Nth loop. -/
def continueCloseClaimC2 : List Block → Int → Bool → Option Bool
  | [], _, _ => none
  | bl :: rest, backwards, acc =>
    if !bl.isloop then
      continueCloseClaimC2 rest backwards (acc || bl.upval)
    else if backwards - 1 = 0 then
      some acc
    else
      continueCloseClaimC2 rest (backwards - 1) acc

/-- A `continue 2` site inside two directly nested loops, the inner of
which carries the upvalue bit. -/
def c2State : FS :=
  { nactvar := 2,
    actvarArr := [{ name := "a", ridx := 0 }, { name := "b", ridx := 1 }],
    actvarN := 2,
    blocks := [{ isloop := true, upval := true, nactvar := 2 },
               { isloop := true, upval := false, nactvar := 0 }],
    freereg := 2 }

/-- Iterated `new_localvar` with an internal control-variable name. -/
def declareMany (s : FS) : Nat → Except PErr FS
  | 0 => .ok s
  | n + 1 =>
    match new_localvar s "(for state)" with
    | .error e => .error e
    | .ok (s', _) => declareMany s' n

/-- The claim's characterization of a read-only assignment target:
a compile-time-constant binding, a local of non-Regular kind, or an
upvalue of non-Regular kind. -/
def isReadonlyTarget (s : FS) (e : ExpDesc) : Prop :=
  (∃ i, e = .VCONST i) ∨
  (∃ vidx ridx, e = .VLOCAL vidx ridx ∧ (getlocalvardesc s vidx).kind ≠ .VDKREG) ∨
  (∃ i, e = .VUPVAL i ∧ (s.upvalues.getD i default).kind ≠ .VDKREG)

/-- A state with one pending goto recorded below the level of one
active local named `w`. -/
def c1WitFS : FS :=
  { actvarArr := [{ kind := .VDKREG, name := "w", ridx := 0 }],
    actvarN := 1, nactvar := 1,
    gotos := [{ name := "l", line := 0, nactvar := 0, close := false, pc := 0 }] }

/-- A state inside a single loop block. -/
def c2WitFS : FS := { blocks := [{ isloop := true }] }

/-- A state with one regular active local `x` in register 0. -/
def c5WitFS : FS :=
  { actvarArr := [{ kind := .VDKREG, name := "x", ridx := 0 }],
    actvarN := 1, nactvar := 1 }

/-- The state `statement` produces for a `break` at the top of a fresh
function. -/
def c8State : FS :=
  match statement initFS Stmt.brk with
  | .ok s => s
  | .error _ => initFS


/-! ## Helper lemmas -/

/-- The checks pass exactly on a `vkisvar` target that is not
read-only. -/
theorem restassignChecks_none_iff (s : FS) (lh : ExpDesc) :
    restassignChecks s lh = none ↔
      (vkisvar lh = true ∧ check_readonly s lh = none) := by
  by_cases hv : vkisvar lh
  · cases hc : check_readonly s lh <;> simp [restassignChecks, hv, hc]
  · simp [restassignChecks, hv]

/-- Unfolding of `restassign` at an empty tail (the innermost call). -/
theorem restassign_nil (s : FS) (lh : ExpDesc) (nvars : Nat)
    (tail : AssignTail) (toks : List Token) :
    restassign s lh [] nvars tail toks =
      (match restassignChecks s lh with
       | some e => .error e
       | none =>
         match tail with
         | .compound op =>
           if nvars ≠ 1 then .error .tupleCompound
           else compoundassign s lh op toks
         | .plainEq =>
           match explist toks with
           | none => .error .exprSyntax
           | some (nexps, remaining) =>
             if nexps = nvars then
               .ok ([.setoneret, .storevar lh], remaining)
             else
               .ok ([.adjustAssign nvars nexps, .storevar lh], remaining)) :=
  rfl

/-- Unfolding of `restassign` at a `',' suffixedexp` step. -/
theorem restassign_cons (s : FS) (lh nv : ExpDesc) (rest' : List ExpDesc)
    (nvars : Nat) (tail : AssignTail) (toks : List Token) :
    restassign s lh (nv :: rest') nvars tail toks =
      (match restassignChecks s lh with
       | some e => .error e
       | none =>
         match restassign s nv rest' (nvars + 1) tail toks with
         | .error e => .error e
         | .ok (ems, remaining) => .ok (ems ++ [.storevar lh], remaining)) :=
  rfl


theorem getlocalvardesc_freereg (s : FS) (r v : Nat) :
    getlocalvardesc { s with freereg := r } v = getlocalvardesc s v := rfl

theorem reglevel_freereg (s : FS) (r n : Nat) :
    reglevel { s with freereg := r } n = reglevel s n := by
  induction n with
  | zero => rfl
  | succ k ih => simp [reglevel, getlocalvardesc_freereg, ih]

theorem nvarstack_freereg (s : FS) (r : Nat) :
    nvarstack { s with freereg := r } = nvarstack s := by
  simp [nvarstack, reglevel_freereg]

/-- Iterated declaration stays within the limit while the function's
count plus the iterations fits in `MAXVARS`, and hits the limit error
on the declaration taking the count to 250. -/
theorem declareMany_boundary (k : Nat) :
    ∀ (s : FS), s.firstlocal ≤ s.actvarN →
      ((s.actvarN - s.firstlocal) + k ≤ 249 →
        (declareMany s k).isOk = true) ∧
      (s.actvarN - s.firstlocal ≤ 249 →
        (s.actvarN - s.firstlocal) + k = 250 →
        declareMany s k = Except.error PErr.tooManyLocals) := by
  induction k with
  | zero =>
    intro s hle
    exact ⟨fun _ => rfl, fun h1 h2 => absurd h2 (by omega)⟩
  | succ k ih =>
    intro s hle
    by_cases hov : (s.actvarN : Int) + 1 - (s.firstlocal : Int) > (MAXVARS : Int)
    · simp only [MAXVARS] at hov
      push_cast at hov
      constructor
      · intro hbound
        omega
      · intro h1 h2
        simp only [declareMany, new_localvar, MAXVARS]
        rw [if_pos (by push_cast; omega)]
    · simp only [MAXVARS] at hov
      push_cast at hov
      have hstep : declareMany s (k + 1) =
          declareMany { s with
            actvarArr := (writeActvar s.actvarArr s.actvarN
              ({ kind := .VDKREG, name := "(for state)", ridx := 0 } : Vardesc)),
            actvarN := s.actvarN + 1 } k := by
        simp only [declareMany, new_localvar, MAXVARS]
        rw [if_neg (by push_cast; omega)]
      rw [hstep]
      have ih' := ih { s with
          actvarArr := (writeActvar s.actvarArr s.actvarN
            ({ kind := .VDKREG, name := "(for state)", ridx := 0 } : Vardesc)),
          actvarN := s.actvarN + 1 } (by simp; omega)
      constructor
      · intro hbound
        exact ih'.1 (by simp; omega)
      · intro h1 h2
        exact ih'.2 (by simp; omega) (by simp; omega)

/-! ## Claims -/

/-- C4: `subexpr` is a precedence climber over the priority table: a
prefix (unary operator at priority 12, `if`-expression, pseudo-unary
`+` as `0 + e` read at `OPR_ADD`'s right priority, or a simple
expression), then a fold of binary operators with left priority above
the limit, recursing at the right priority; `^` and `..` associate to
the right, the others to the left; the first operator that is not
consumed is left at the head of the remaining tokens.  The first
conjunct checks every table entry the claim lists; the second
witnesses the climbing discipline on representative token strings with
arbitrary literal payloads. -/
theorem subexpr_precedence_climber :
    (priorityLeft OPR_ADD = 10 ∧ priorityRight OPR_ADD = 10 ∧
    priorityLeft OPR_SUB = 10 ∧ priorityRight OPR_SUB = 10 ∧
    priorityLeft OPR_MUL = 11 ∧ priorityRight OPR_MUL = 11 ∧
    priorityLeft OPR_MOD = 11 ∧ priorityRight OPR_MOD = 11 ∧
    priorityLeft OPR_DIV = 11 ∧ priorityRight OPR_DIV = 11 ∧
    priorityLeft OPR_IDIV = 11 ∧ priorityRight OPR_IDIV = 11 ∧
    priorityLeft OPR_POW = 14 ∧ priorityRight OPR_POW = 13 ∧
    priorityLeft OPR_BAND = 6 ∧ priorityRight OPR_BAND = 6 ∧
    priorityLeft OPR_BXOR = 5 ∧ priorityRight OPR_BXOR = 5 ∧
    priorityLeft OPR_BOR = 4 ∧ priorityRight OPR_BOR = 4 ∧
    priorityLeft OPR_SHL = 7 ∧ priorityRight OPR_SHL = 7 ∧
    priorityLeft OPR_SHR = 7 ∧ priorityRight OPR_SHR = 7 ∧
    priorityLeft OPR_CONCAT = 9 ∧ priorityRight OPR_CONCAT = 8 ∧
    priorityLeft OPR_EQ = 3 ∧ priorityRight OPR_EQ = 3 ∧
    priorityLeft OPR_NE = 3 ∧ priorityRight OPR_NE = 3 ∧
    priorityLeft OPR_LT = 3 ∧ priorityRight OPR_LT = 3 ∧
    priorityLeft OPR_LE = 3 ∧ priorityRight OPR_LE = 3 ∧
    priorityLeft OPR_GT = 3 ∧ priorityRight OPR_GT = 3 ∧
    priorityLeft OPR_GE = 3 ∧ priorityRight OPR_GE = 3 ∧
    priorityLeft OPR_AND = 2 ∧ priorityRight OPR_AND = 2 ∧
    priorityLeft OPR_OR = 1 ∧ priorityRight OPR_OR = 1 ∧
    priorityLeft OPR_COAL = 1 ∧ priorityRight OPR_COAL = 1 ∧
    UNARY_PRIORITY = 12) ∧
    ∀ a b c : Int,
      expr [tkInt a, tkPlus, tkInt b, tkStar, tkInt c] =
        some (.binop OPR_ADD (.int a) (.binop OPR_MUL (.int b) (.int c)), []) ∧
      expr [tkInt a, tkStar, tkInt b, tkPlus, tkInt c] =
        some (.binop OPR_ADD (.binop OPR_MUL (.int a) (.int b)) (.int c), []) ∧
      expr [tkInt a, tkCaret, tkInt b, tkCaret, tkInt c] =
        some (.binop OPR_POW (.int a) (.binop OPR_POW (.int b) (.int c)), []) ∧
      expr [tkInt a, tkConcat, tkInt b, tkConcat, tkInt c] =
        some (.binop OPR_CONCAT (.int a) (.binop OPR_CONCAT (.int b) (.int c)), []) ∧
      expr [tkInt a, tkMinus, tkInt b, tkMinus, tkInt c] =
        some (.binop OPR_SUB (.binop OPR_SUB (.int a) (.int b)) (.int c), []) ∧
      expr [tkMinus, tkInt a, tkCaret, tkInt b] =
        some (.unop OPR_MINUS (.binop OPR_POW (.int a) (.int b)), []) ∧
      expr [tkMinus, tkInt a, tkStar, tkInt b] =
        some (.binop OPR_MUL (.unop OPR_MINUS (.int a)) (.int b), []) ∧
      expr [tkNot, tkInt a, tkAnd, tkInt b] =
        some (.binop OPR_AND (.unop OPR_NOT (.int a)) (.int b), []) ∧
      expr [tkPlus, tkInt a, tkStar, tkInt b] =
        some (.binop OPR_ADD (.int 0) (.binop OPR_MUL (.int a) (.int b)), []) ∧
      expr [tkIf, tkInt a, tkThen, tkInt b, tkElse, tkInt c] =
        some (.ifE (.int a) (.int b) (.int c), []) ∧
      expr [tkInt a, tkAnd, tkInt b, tkOr, tkInt c] =
        some (.binop OPR_OR (.binop OPR_AND (.int a) (.int b)) (.int c), []) ∧
      subexpr 7 [tkInt a, tkOr, tkInt b] (priorityLeft OPR_OR) =
        some (.int a, [tkOr, tkInt b]) ∧
      expr [tkInt a, tkComma, tkInt b] = some (.int a, [tkComma, tkInt b]) :=
  ⟨by decide, fun a b c =>
    ⟨rfl, rfl, rfl, rfl, rfl, rfl, rfl, rfl, rfl, rfl, rfl, rfl, rfl⟩⟩

/-- C6: `new_localvar` succeeds exactly while the function's
compiler-index count stays at or below `MAXVARS` = 249 after the
declaration; only the difference `actvar.n - firstlocal` (the current
function's own declarations, internal control variables included)
matters, so declarations of enclosing functions do not count.  From a
fresh function, 249 declarations of `"(for state)"` succeed and the
250th raises `TooManyLocals`. -/
theorem new_localvar_limit :
    (∀ (s : FS) (name : String),
        (new_localvar s name).isOk = true ↔
          (s.actvarN : Int) + 1 - (s.firstlocal : Int) ≤ 249) ∧
    (∀ (s : FS) (name : String) (d : Nat),
        (new_localvar { s with actvarN := s.actvarN + d,
                               firstlocal := s.firstlocal + d } name).isOk =
          (new_localvar s name).isOk) ∧
    (declareMany initFS 249).isOk = true ∧
    declareMany initFS 250 = Except.error PErr.tooManyLocals := by
  refine ⟨?_, ?_,
    (declareMany_boundary 249 initFS (Nat.le_refl 0)).1 (by simp [initFS]),
    (declareMany_boundary 250 initFS (Nat.le_refl 0)).2 (by simp [initFS])
      (by simp [initFS])⟩
  · intro s name
    simp only [new_localvar, MAXVARS]
    split
    · simp only [Except.isOk, Except.toBool, Bool.false_eq_true, false_iff]
      omega
    · simp only [Except.isOk, Except.toBool, true_iff]
      omega
  · intro s name d
    simp only [new_localvar, MAXVARS]
    split <;> split <;> first | rfl | omega

/-- C3 (counterexample): `caselist` raises the continue-in-case error
for a `continue` directly inside a case body even when an enclosing
loop exists; the claim's reading (error only without an enclosing
loop) predicts the token is handed to `statement` instead. -/
theorem caselist_continue_counterexample :
    caselistStep false tkContinue tkEnd = CaseAction.errContinueInCase ∧
    caselistStepClaimC3 true false tkContinue tkEnd = CaseAction.runStatement := by
  decide

/-- C3 (amended): a `continue` token directly inside a `case` or
`default` body always raises the continue-in-case error, for either
spelling of the token and regardless of any enclosing loop (the
`caselist` check consults no loop context at all). -/
theorem caselist_continue_always_errors :
    ∀ (isdefault : Bool) (ahead : Token),
      caselistStep isdefault tkContinue ahead = CaseAction.errContinueInCase ∧
      caselistStep isdefault tkPContinue ahead = CaseAction.errContinueInCase := by
  intro isdefault ahead
  cases isdefault <;> exact ⟨rfl, rfl⟩

/-- C10: inside a `default` body, a `break` token whose lookahead is
`end` is consumed as a no-op (`caselist` just skips the token, so no
jump is emitted and no pending goto is recorded); the same position
inside a non-default case body goes to `statement`, whose `breakstat`
emits one unconditional jump and records a pending goto named
`break`. -/
theorem default_trailing_break_noop :
    caselistStep true tkBreak tkEnd = CaseAction.skipBreak ∧
    caselistStep false tkBreak tkEnd = CaseAction.runStatement ∧
    ∀ (s : FS) (line : Nat),
      (breakstat s line).code = s.code ++ [Instr.jmp] ∧
      (breakstat s line).gotos = s.gotos ++
        [{ name := "break", line := line, nactvar := s.nactvar,
           close := false, pc := s.pc }] ∧
      (breakstat s line).patches = s.patches :=
  ⟨rfl, rfl, fun _ _ => ⟨rfl, rfl, rfl⟩⟩

/-- C9: in the parse of a `break` inside a case body of a `switch`
nested in a loop, the switch's block (entered with `isloop = 1` at
lparser.cpp line 2192) resolves the pending `break` goto when it is
left: the break's jump (pc 0) is patched to the switch's exit (pc 1),
not to the enclosing loop's exit (pc 2, where the loop's own `break`
label is created later), and no pending goto survives to the loop. -/
theorem switch_break_resolves_at_switch_exit :
    c9Run = Except.ok c9Final ∧
    c9Final.patches = [(0, 1)] ∧
    c9Final.pc = 2 ∧
    c9Final.gotos = [] := by decide

/-- C1 (counterexample): in `do goto fwd local v ::fwd:: end` the label
is the last non-op statement of its block, so `createlabel` runs with
`last` set, takes the enclosing level as the label's active-variable
count, and the forward goto resolves: parsing succeeds, contradicting
the claim that every such program fails with `JumpIntoScope`. -/
theorem goto_over_local_to_last_label_ok :
    (c1Run true).isOk = true := by decide

/-- C1 (amended): `goto fwd` followed by a local declaration and then
`::fwd::` fails with `JumpIntoScope` naming the local, provided the
label is not the last non-op statement of its block; in general
`solvegoto` rejects a pending goto exactly when its active-variable
count at the goto site is smaller than the matching label's, and the
error names the local at compiler index `goto.nactvar`. -/
theorem goto_into_scope_rejected :
    c1Run false = Except.error (PErr.jumpIntoScope "v") ∧
    ∀ (s : FS) (g : Nat) (lb : Labeldesc),
      ((solvegoto s g lb).isOk = false ↔
        (s.gotos.getD g default).nactvar < lb.nactvar) ∧
      ((s.gotos.getD g default).nactvar < lb.nactvar →
        solvegoto s g lb = Except.error (PErr.jumpIntoScope
          (getlocalvardesc s (s.gotos.getD g default).nactvar).name)) := by
  refine ⟨by decide, ?_⟩
  intro s g lb
  simp only [solvegoto]
  split
  · simp_all [Except.isOk, Except.toBool]
  · simp_all [Except.isOk, Except.toBool]

theorem continueFind_cons_nonloop (bl : Block) (rest : List Block)
    (n : Int) (acc : Bool) (h : bl.isloop = false) :
    continueFind (bl :: rest) n acc =
      (continueFind rest n (acc || bl.upval)).map (fun p => (p.1 + 1, p.2)) := by
  simp [continueFind, h]

theorem continueFind_cons_loop_hit (bl : Block) (rest : List Block)
    (n : Int) (acc : Bool) (h : bl.isloop = true) (h1 : n - 1 = 0) :
    continueFind (bl :: rest) n acc = some (0, acc) := by
  simp [continueFind, h, h1]

theorem continueFind_cons_loop_miss (bl : Block) (rest : List Block)
    (n : Int) (acc : Bool) (h : bl.isloop = true) (h1 : ¬(n - 1 = 0)) :
    continueFind (bl :: rest) n acc =
      (continueFind rest (n - 1) (acc || bl.upval)).map
        (fun p => (p.1 + 1, p.2)) := by
  simp [continueFind, h, h1]

theorem continueFind_none_iff (blocks : List Block) (n : Int) (acc : Bool) :
    continueFind blocks n acc = none ↔
      ((blocks.countP (fun b => b.isloop)) : Int) < n ∨ n ≤ 0 := by
  induction blocks generalizing n acc with
  | nil =>
    simp only [continueFind, List.countP_nil, Nat.cast_zero]
    constructor
    · intro _; omega
    · intro _; trivial
  | cons bl rest ih =>
    cases hl : bl.isloop with
    | true =>
      by_cases h1 : n - 1 = 0
      · rw [continueFind_cons_loop_hit bl rest n acc hl h1]
        simp only [List.countP_cons, hl, if_true, reduceCtorEq, false_iff]
        push_cast
        omega
      · rw [continueFind_cons_loop_miss bl rest n acc hl h1,
            Option.map_eq_none', ih]
        simp only [List.countP_cons, hl, if_true]
        push_cast
        omega
    | false =>
      rw [continueFind_cons_nonloop bl rest n acc hl,
          Option.map_eq_none', ih]
      simp only [List.countP_cons, hl, if_false]
      push_cast
      omega

theorem continueFind_some (blocks : List Block) (n : Int) (acc : Bool)
    (i : Nat) (u : Bool) :
    continueFind blocks n acc = some (i, u) →
      ∃ bl, blocks[i]? = some bl ∧ bl.isloop = true ∧
        (((blocks.take (i + 1)).countP (fun b => b.isloop)) : Int) = n ∧
        u = (acc || (blocks.take i).any (fun b => b.upval)) := by
  induction blocks generalizing n acc i u with
  | nil => simp [continueFind]
  | cons bl rest ih =>
    intro h
    cases hl : bl.isloop with
    | true =>
      by_cases h1 : n - 1 = 0
      · rw [continueFind_cons_loop_hit bl rest n acc hl h1] at h
        simp only [Option.some_inj, Prod.mk.injEq] at h
        obtain ⟨hi, hu⟩ := h
        subst hi
        refine ⟨bl, by simp, hl, ?_, ?_⟩
        · simp only [List.take_succ_cons, List.take_zero, List.countP_cons,
                     List.countP_nil, hl, if_true]
          push_cast
          omega
        · simp [← hu]
      · rw [continueFind_cons_loop_miss bl rest n acc hl h1,
            Option.map_eq_some'] at h
        obtain ⟨⟨i', u'⟩, hfind, heq⟩ := h
        simp only [Prod.mk.injEq] at heq
        obtain ⟨hi, hu⟩ := heq
        subst hi
        subst hu
        obtain ⟨bl', hget, hloop, hcount, hub⟩ :=
          ih (n - 1) (acc || bl.upval) i' u' hfind
        refine ⟨bl', by simpa using hget, hloop, ?_, ?_⟩
        · simp only [List.take_succ_cons, List.countP_cons, hl, if_true]
          push_cast at hcount ⊢
          omega
        · simp only [List.take_succ_cons, List.any_cons, hub, Bool.or_assoc]
    | false =>
      rw [continueFind_cons_nonloop bl rest n acc hl,
          Option.map_eq_some'] at h
      obtain ⟨⟨i', u'⟩, hfind, heq⟩ := h
      simp only [Prod.mk.injEq] at heq
      obtain ⟨hi, hu⟩ := heq
      subst hi
      subst hu
      obtain ⟨bl', hget, hloop, hcount, hub⟩ :=
        ih n (acc || bl.upval) i' u' hfind
      refine ⟨bl', by simpa using hget, hloop, ?_, ?_⟩
      · simp only [List.take_succ_cons, List.countP_cons, hl, if_false]
        simpa using hcount
      · simp only [List.take_succ_cons, List.any_cons, hub, Bool.or_assoc]

/-- C2 (counterexample): at a `continue 2` inside two directly nested
loops whose inner loop carries the upvalue bit, `continuestat` emits a
`Close` (the walk aggregated the skipped loop block's bit), while the
claim's aggregation — over skipped non-loop blocks only — is false
and predicts no `Close`. -/
theorem continue_close_aggregation_counterexample :
    (continuestat c2State 2).toOption.map (fun s' => s'.code) =
      some [Instr.opClose 0, Instr.jmp] ∧
    continueCloseClaimC2 c2State.blocks 2 false = some false := by decide

/-- C2 (amended): `continue N` walks the block stack to the Nth loop
block, aggregating the has-upvalue bits of every block walked over —
the non-loop blocks and the first N-1 loop blocks alike; at the Nth
loop block (the one whose prefix holds exactly N loops) it emits
`Close` at that block's active-variable count exactly when some
walked-over block carried the bit, then appends one unconditional jump
to that block's `scopeend` list; with fewer than N enclosing loop
blocks (or N <= 0) it fails as continue-outside-loop. -/
theorem continuestat_close_and_jump :
    ∀ (s : FS) (n : Int),
      (continuestat s n = Except.error PErr.continueOutsideLoop ↔
        ((s.blocks.countP (fun b => b.isloop)) : Int) < n ∨ n ≤ 0) ∧
      (∀ i u, continueFind s.blocks n false = some (i, u) →
        ∃ bl, s.blocks[i]? = some bl ∧ bl.isloop = true ∧
          (((s.blocks.take (i + 1)).countP (fun b => b.isloop)) : Int) = n ∧
          u = (s.blocks.take i).any (fun b => b.upval) ∧
          ∃ s', continuestat s n = Except.ok s' ∧
            s'.code = s.code ++
              (if u then [Instr.opClose bl.nactvar] else []) ++ [Instr.jmp] ∧
            s'.blocks = s.blocks.set i
              { bl with scopeend := bl.scopeend ++
                  [s.pc + (if u then 1 else 0)] } ∧
            s'.pc = s.pc + (if u then 1 else 0) + 1 ∧
            s'.patches = s.patches ∧
            s'.gotos = s.gotos) := by
  intro s n
  constructor
  · rw [← continueFind_none_iff s.blocks n false]
    constructor
    · intro h
      by_contra hne
      obtain ⟨p, hp⟩ := Option.ne_none_iff_exists'.mp hne
      simp [continuestat, hp] at h
    · intro h
      simp [continuestat, h]
  · intro i u hfind
    obtain ⟨bl, hget, hloop, hcount, hub⟩ :=
      continueFind_some s.blocks n false i u hfind
    refine ⟨bl, hget, hloop, hcount, by simpa using hub, ?_⟩
    cases u with
    | false =>
      refine ⟨{ s with code := s.code ++ [Instr.jmp], pc := s.pc + 1,
                       blocks := s.blocks.set i
                         { bl with scopeend := bl.scopeend ++ [s.pc] } },
              ?_, ?_, ?_, ?_, ?_, ?_⟩ <;>
        simp [continuestat, hfind, List.getD, hget, luaKjump, emitInstr]
    | true =>
      refine ⟨{ s with code := s.code ++ [Instr.opClose bl.nactvar, Instr.jmp],
                       pc := s.pc + 2,
                       blocks := s.blocks.set i
                         { bl with scopeend := bl.scopeend ++ [s.pc + 1] } },
              ?_, ?_, ?_, ?_, ?_, ?_⟩ <;>
        simp [continuestat, hfind, List.getD, hget, luaKjump, emitInstr]

theorem compoundassign_store (s : FS) (v : ExpDesc) (op : BinOpr)
    (toks : List Token) (ems : List Emit) (rem : List Token) :
    compoundassign s v op toks = Except.ok (ems, rem) →
    ∀ d, Emit.storevar d ∈ ems → d = v := by
  intro h d hd
  unfold compoundassign at h
  split at h <;> split at h <;>
    (try simp only [reduceCtorEq] at h) <;>
    (simp only [Except.ok.injEq, Prod.mk.injEq] at h
     obtain ⟨hems, _⟩ := h
     subst hems
     simp_all)

/-- C5: `check_readonly` reports a name exactly for a compile-time
constant binding (`VCONST`), a local of non-Regular kind, or an
upvalue of non-Regular kind — every other assignment target passes;
and `restassign` runs `check_readonly` on every left-hand side before
emitting any store, so in a successful assignment every emitted
`storevar` destination passes the check (no store to a read-only
destination exists in successful output). -/
theorem check_readonly_const_safety :
    (∀ (s : FS) (e : ExpDesc),
        (check_readonly s e).isSome = true ↔ isReadonlyTarget s e) ∧
    (∀ (s : FS) (lh : ExpDesc) (rest : List ExpDesc) (nvars : Nat)
        (tail : AssignTail) (toks : List Token) (ems : List Emit)
        (rem : List Token),
        restassign s lh rest nvars tail toks = Except.ok (ems, rem) →
        ∀ d, Emit.storevar d ∈ ems →
          check_readonly s d = none ∧ vkisvar d = true) := by
  constructor
  · intro s e
    cases e
    case VLOCAL vidx ridx =>
      by_cases hk : (getlocalvardesc s vidx).kind = VarKind.VDKREG <;>
        simp [check_readonly, isReadonlyTarget, hk]
    case VUPVAL info =>
      by_cases hk : (s.upvalues.getD info default).kind = VarKind.VDKREG <;>
        simp [check_readonly, isReadonlyTarget, hk]
    all_goals simp [check_readonly, isReadonlyTarget]
  · intro s lh rest
    induction rest generalizing lh with
    | nil =>
      intro nvars tail toks ems rem h d hd
      rw [restassign_nil] at h
      split at h
      · exact absurd h (by simp)
      next hchk =>
        obtain ⟨hvar', hro⟩ := (restassignChecks_none_iff s lh).mp hchk
        split at h
        next op =>
          split at h
          · exact absurd h (by simp)
          · have hd' := compoundassign_store s lh op toks ems rem h d hd
            subst hd'
            exact ⟨hro, hvar'⟩
        next =>
          split at h
          · exact absurd h (by simp)
          next nexps remaining heq =>
            split at h <;>
              (simp only [Except.ok.injEq, Prod.mk.injEq] at h
               obtain ⟨hems, _⟩ := h
               subst hems
               simp only [List.mem_cons, List.mem_singleton,
                          List.not_mem_nil, or_false] at hd
               rcases hd with hd | hd <;> simp_all)
    | cons nv rest' ih =>
      intro nvars tail toks ems rem h d hd
      rw [restassign_cons] at h
      split at h
      · exact absurd h (by simp)
      next hchk =>
        obtain ⟨hvar', hro⟩ := (restassignChecks_none_iff s lh).mp hchk
        split at h
        · exact absurd h (by simp)
        next ems' rem' hrec =>
          simp only [Except.ok.injEq, Prod.mk.injEq] at h
          obtain ⟨hems, _⟩ := h
          subst hems
          rw [List.mem_append] at hd
          rcases hd with hd | hd
          · exact ih nv (nvars + 1) tail toks ems' rem' hrec d hd
          · simp only [List.mem_singleton, Emit.storevar.injEq] at hd
            subst hd
            exact ⟨hro, hvar'⟩

theorem restassign_compound_tuple_aux (s : FS) (op : BinOpr)
    (toks : List Token) :
    ∀ (rest : List ExpDesc) (nv : ExpDesc) (nvars : Nat), 1 ≤ nvars →
      (∀ e ∈ nv :: rest, vkisvar e = true ∧ check_readonly s e = none) →
      restassign s nv rest (nvars + 1) (.compound op) toks =
        Except.error AssignErr.tupleCompound := by
  intro rest
  induction rest with
  | nil =>
    intro nv nvars h1 hall
    obtain ⟨hv, hr⟩ := hall nv (by simp)
    have hchk := (restassignChecks_none_iff s nv).mpr ⟨hv, hr⟩
    rw [restassign_nil]
    simp only [hchk]
    rw [if_pos (show nvars + 1 ≠ 1 by omega)]
  | cons nv2 rest'' ih =>
    intro nv nvars h1 hall
    obtain ⟨hv, hr⟩ := hall nv (by simp)
    have hchk := (restassignChecks_none_iff s nv).mpr ⟨hv, hr⟩
    have hrec := ih nv2 (nvars + 1) (by omega)
      (fun e he => hall e (List.mem_cons_of_mem _ he))
    rw [restassign_cons]
    simp [hchk, hrec]

/-- C7: `getcompoundop` maps each compound token to its binary
operator; with two or more left-hand sides `restassign` fails with the
unsupported-tuple-assignment error; with exactly one it dispatches to
`compoundassign`, which parses a single right-hand-side expression
(the tokens after it are left unconsumed), folds via `luaK_infix` /
`luaK_posfix` with the lvalue as left operand, and ends by storing
into the lvalue. -/
theorem compound_assignment_single_lhs :
    (getcompoundop CompTok.tkCAdd = OPR_ADD ∧
     getcompoundop CompTok.tkCSub = OPR_SUB ∧
     getcompoundop CompTok.tkCMul = OPR_MUL ∧
     getcompoundop CompTok.tkCDiv = OPR_DIV ∧
     getcompoundop CompTok.tkCIDiv = OPR_IDIV ∧
     getcompoundop CompTok.tkCMod = OPR_MOD ∧
     getcompoundop CompTok.tkCPow = OPR_POW ∧
     getcompoundop CompTok.tkCCat = OPR_CONCAT ∧
     getcompoundop CompTok.tkCBAnd = OPR_BAND ∧
     getcompoundop CompTok.tkCBOr = OPR_BOR ∧
     getcompoundop CompTok.tkCBXor = OPR_BXOR ∧
     getcompoundop CompTok.tkCShl = OPR_SHL ∧
     getcompoundop CompTok.tkCShr = OPR_SHR ∧
     getcompoundop CompTok.tkCoalSaved = OPR_COAL) ∧
    (∀ (s : FS) (lh nv : ExpDesc) (rest' : List ExpDesc) (op : BinOpr)
        (toks : List Token),
        (∀ e ∈ lh :: nv :: rest', vkisvar e = true ∧ check_readonly s e = none) →
        restassign s lh (nv :: rest') 1 (.compound op) toks =
          Except.error AssignErr.tupleCompound) ∧
    (∀ (s : FS) (lh : ExpDesc) (op : BinOpr) (toks : List Token),
        vkisvar lh = true → check_readonly s lh = none →
        restassign s lh [] 1 (.compound op) toks =
          compoundassign s lh op toks) ∧
    (∀ (s : FS) (v : ExpDesc) (op : BinOpr) (toks : List Token)
        (a : Ast) (rest : List Token),
        expr toks = some (a, rest) →
        ∃ ems, compoundassign s v op toks = Except.ok (ems, rest) ∧
          Emit.infOp op ∈ ems ∧ Emit.posfixOp op ∈ ems ∧
          ems.getLast? = some (Emit.storevar v)) := by
  refine ⟨by decide, ?_, ?_, ?_⟩
  · intro s lh nv rest' op toks hall
    obtain ⟨hv, hr⟩ := hall lh (by simp)
    have hchk := (restassignChecks_none_iff s lh).mpr ⟨hv, hr⟩
    have hrec := restassign_compound_tuple_aux s op toks rest' nv 1
      (by omega) (fun e he => hall e (List.mem_cons_of_mem _ he))
    rw [restassign_cons]
    simp [hchk, hrec]
  · intro s lh op toks hv hr
    have hchk := (restassignChecks_none_iff s lh).mpr ⟨hv, hr⟩
    rw [restassign_nil]
    simp [hchk]
  · intro s v op toks a rest hex
    cases v <;>
      simp only [compoundassign, hex] <;>
      exact ⟨_, rfl, by simp, by simp, by simp [List.getLast?]⟩

theorem reglevel_eq_of_fields (s s' : FS) (h1 : s'.actvarArr = s.actvarArr)
    (h2 : s'.firstlocal = s.firstlocal) (n : Nat) :
    reglevel s' n = reglevel s n := by
  induction n with
  | zero => rfl
  | succ k ih => simp [reglevel, getlocalvardesc, h1, h2, ih]

/-- C8: every embedded statement form runs through the epilogue
`fs->freereg = luaY_nvarstack(fs)` of `statement()` (lparser.cpp line
2795), so whenever `statement` succeeds the free-register watermark
equals the register level of the active variables; and `enterblock`
touches neither `freereg` nor the active variables, so a block is
entered with the equality exactly when it held before —
re-established by every statement, it holds at all statement
boundaries. -/
theorem statement_resets_watermark :
    (∀ (st : Stmt) (s s' : FS),
        statement s st = Except.ok s' → s'.freereg = nvarstack s') ∧
    (∀ (s : FS) (isloop : Bool),
        (enterblock s isloop).freereg = s.freereg ∧
        nvarstack (enterblock s isloop) = nvarstack s) := by
  constructor
  · intro st s s' h
    simp only [statement] at h
    cases hb : statementBody s st with
    | error e => rw [hb] at h; exact absurd h (by simp [Except.map])
    | ok x =>
      rw [hb] at h
      simp only [Except.map, Except.ok.injEq] at h
      subst h
      exact (nvarstack_freereg x (nvarstack x)).symm
  · intro s isloop
    refine ⟨rfl, ?_⟩
    exact reglevel_eq_of_fields s (enterblock s isloop) rfl rfl s.nactvar

/-! ## Witnesses -/

/-- Witness for `goto_into_scope_rejected` at a concrete state. -/
theorem goto_into_scope_rejected_witness :
    ((c1WitFS.gotos.getD 0 default).nactvar <
        ({ name := "l", nactvar := 1 } : Labeldesc).nactvar) ∧
      solvegoto c1WitFS 0 { name := "l", nactvar := 1 } =
        Except.error (PErr.jumpIntoScope "w") := by
  refine ⟨by decide, ?_⟩
  exact (goto_into_scope_rejected.2 c1WitFS 0
    { name := "l", nactvar := 1 }).2 (by decide)

/-- Witness for `continuestat_close_and_jump` at a concrete state. -/
theorem continuestat_close_and_jump_witness :
    continueFind c2WitFS.blocks 1 false = some (0, false) ∧
    (continuestat c2WitFS 1).isOk = true := by
  refine ⟨by decide, ?_⟩
  obtain ⟨bl, _, _, _, _, s', hok, _⟩ :=
    (continuestat_close_and_jump c2WitFS 1).2 0 false (by decide)
  rw [hok]
  rfl

/-- Witness for `check_readonly_const_safety` on the concrete
assignment `x = 1`. -/
theorem check_readonly_const_safety_witness :
    restassign c5WitFS (ExpDesc.VLOCAL 0 0) [] 1 AssignTail.plainEq
        [Token.tkInt 1] =
      Except.ok ([Emit.setoneret, Emit.storevar (ExpDesc.VLOCAL 0 0)], []) ∧
    (check_readonly c5WitFS (ExpDesc.VLOCAL 0 0) = none ∧
      vkisvar (ExpDesc.VLOCAL 0 0) = true) :=
  ⟨by decide,
   check_readonly_const_safety.2 c5WitFS (ExpDesc.VLOCAL 0 0) [] 1
     AssignTail.plainEq [Token.tkInt 1]
     [Emit.setoneret, Emit.storevar (ExpDesc.VLOCAL 0 0)] [] (by decide)
     (ExpDesc.VLOCAL 0 0) (by decide)⟩

/-- Witness for `compound_assignment_single_lhs` on concrete inputs:
a two-element LHS with `+=` errors, a single local dispatches to
`compoundassign`, and `compoundassign` consumes exactly one expression
of `5, 6`, leaving `, 6` unread. -/
theorem compound_assignment_single_lhs_witness :
    ((∀ e ∈ [ExpDesc.VLOCAL 0 0, ExpDesc.VLOCAL 1 1],
        vkisvar e = true ∧ check_readonly initFS e = none) ∧
      restassign initFS (ExpDesc.VLOCAL 0 0) [ExpDesc.VLOCAL 1 1] 1
          (AssignTail.compound OPR_ADD) [Token.tkInt 5] =
        Except.error AssignErr.tupleCompound) ∧
    restassign initFS (ExpDesc.VLOCAL 0 0) [] 1
        (AssignTail.compound OPR_ADD) [Token.tkInt 5] =
      compoundassign initFS (ExpDesc.VLOCAL 0 0) OPR_ADD [Token.tkInt 5] ∧
    (∃ ems, compoundassign initFS (ExpDesc.VLOCAL 0 0) OPR_ADD
          [Token.tkInt 5, Token.tkComma, Token.tkInt 6] =
        Except.ok (ems, [Token.tkComma, Token.tkInt 6]) ∧
        Emit.infOp OPR_ADD ∈ ems ∧ Emit.posfixOp OPR_ADD ∈ ems ∧
        ems.getLast? = some (Emit.storevar (ExpDesc.VLOCAL 0 0))) :=
  ⟨⟨by decide,
    compound_assignment_single_lhs.2.1 initFS (ExpDesc.VLOCAL 0 0)
      (ExpDesc.VLOCAL 1 1) [] OPR_ADD [Token.tkInt 5] (by decide)⟩,
   compound_assignment_single_lhs.2.2.1 initFS (ExpDesc.VLOCAL 0 0) OPR_ADD
     [Token.tkInt 5] (by decide) (by decide),
   compound_assignment_single_lhs.2.2.2 initFS (ExpDesc.VLOCAL 0 0) OPR_ADD
     [Token.tkInt 5, Token.tkComma, Token.tkInt 6] (Ast.int 5)
     [Token.tkComma, Token.tkInt 6] (by decide)⟩

/-- Witness for `statement_resets_watermark` on a concrete `break`. -/
theorem statement_resets_watermark_witness :
    statement initFS Stmt.brk = Except.ok c8State ∧
    c8State.freereg = nvarstack c8State :=
  ⟨by decide, statement_resets_watermark.1 Stmt.brk initFS c8State (by decide)⟩

end Pluto
